import Mathlib

/-!
Verification of the computational core of `src/steamlitstuff.py`: an
interactive profitability model that evaluates three profit curves
(`P_base`, `P_endh`, `P_dup`) over a 200-point franchise-ratio grid and
derives padded y-axis display bounds.

Embedding conventions: Python floats are modelled as real numbers, numpy
arrays as lists of reals, and `np.linspace(0, 1, 200)` as the list of
values `i / 199` for `i = 0, …, 199` (the spacing `(1 - 0)/(200 - 1)` is
exact over `ℝ`, and the last value is exactly `1`).  The elementwise numpy
expressions of lines 46-48 become `List.map` / `List.zipWith`, and the
`.min()` / `.max()` reductions of line 76 become left folds with `min` /
`max` over the nonempty concatenated list.
-/

namespace Steamlit

/-- The parameter set read from the sidebar sliders (source lines 14-31).
`N` is an integer slider; every other control produces a float. -/
structure Params where
  pi : ℝ
  C_op : ℝ
  H : ℝ
  v : ℝ
  N : ℕ
  a_star : ℝ
  beta : ℝ
  kappa : ℝ
  delta : ℝ

/-- The declared slider domains (source lines 14-31; spec section 3):
π, C_op, δ in [0,1]; H in [0, 5e7]; v in [0, 5e4]; N an integer in
[1, 10000]; a* in [0, 10]; β, κ in [0.1, 10]. -/
def Valid (ps : Params) : Prop :=
  0 ≤ ps.pi ∧ ps.pi ≤ 1 ∧
  0 ≤ ps.C_op ∧ ps.C_op ≤ 1 ∧
  0 ≤ ps.H ∧ ps.H ≤ 50000000 ∧
  0 ≤ ps.v ∧ ps.v ≤ 50000 ∧
  1 ≤ ps.N ∧ ps.N ≤ 10000 ∧
  0 ≤ ps.a_star ∧ ps.a_star ≤ 10 ∧
  0.1 ≤ ps.beta ∧ ps.beta ≤ 10 ∧
  0.1 ≤ ps.kappa ∧ ps.kappa ≤ 10 ∧
  0 ≤ ps.delta ∧ ps.delta ≤ 1

/-- The default slider values of the script (source lines 14-31). -/
def psDefault : Params := ⟨0.23, 0.20, 10000000, 5000, 500, 1, 1, 1, 0.1⟩

/-- A degenerate parameter set: π = C_op = 0, H = v = 0, a* = 0, δ = 0
(N = 1, β = κ = 1), inside every declared domain. -/
def psZero : Params := ⟨0, 0, 0, 0, 1, 0, 1, 1, 0⟩

/-- The degenerate parameter set with the nonzero penalty δ = 0.1. -/
def psDeg : Params := ⟨0, 0, 0, 0, 1, 0, 1, 1, 0.1⟩

/-- The default slider values with the out-of-domain outlet count N = 0. -/
def psN0 : Params := ⟨0.23, 0.20, 10000000, 5000, 0, 1, 1, 1, 0.1⟩

noncomputable section

/-- Effort cost, source line 37: `c = lambda a: 0.5 * kappa * a**2`. -/
def c (ps : Params) (a : ℝ) : ℝ := 0.5 * ps.kappa * a ^ 2

/-- Success probability, source line 38: `p = lambda a: 1 - np.exp(-beta * a)`. -/
def p (ps : Params) (a : ℝ) : ℝ := 1 - Real.exp (-ps.beta * a)

/-- Total operational cost, source line 39:
`C_op_F = lambda F: H + v * (1 - F) * N`. -/
def C_op_F (ps : Params) (f : ℝ) : ℝ := ps.H + ps.v * (1 - f) * ps.N

/-- The franchise-ratio grid, source line 42: `F = np.linspace(0, 1, 200)`,
i.e. the 200 values `i / 199` for `i = 0, …, 199`. -/
def F : List ℝ := (List.range 200).map (fun i : ℕ => (i : ℝ) / 199)

/-- Baseline profit curve, source line 46:
`P_base = (1 - F) * (pi - C_op) + F * (p(a_star) * pi - c(a_star))`. -/
def P_base (ps : Params) : List ℝ :=
  F.map (fun f =>
    (1 - f) * (ps.pi - ps.C_op) + f * (p ps ps.a_star * ps.pi - c ps ps.a_star))

/-- Endogenous-overhead profit curve, source line 47: the total cost
`C_op_F(F)` is divided by `N` for the per-outlet figure. -/
def P_endh (ps : Params) : List ℝ :=
  F.map (fun f =>
    (1 - f) * (ps.pi - C_op_F ps f / ps.N) +
      f * (p ps ps.a_star * ps.pi - c ps ps.a_star))

/-- Duplication-penalty profit curve, source line 48:
`P_dup = P_endh - delta * F * (1 - F)`, elementwise over aligned arrays. -/
def P_dup (ps : Params) : List ℝ :=
  List.zipWith (fun pe f => pe - ps.delta * f * (1 - f)) (P_endh ps) F

/-- Concatenation of the three curves, source line 75:
`all_p_values = np.concatenate([P_base, P_endh, P_dup])`. -/
def all_p_values (ps : Params) : List ℝ := P_base ps ++ P_endh ps ++ P_dup ps

/-- The `.min()` reduction of a numpy array, modelled on lists (the source
only ever applies it to the nonempty 600-element concatenation). -/
def listMin : List ℝ → ℝ
  | [] => 0
  | x :: t => t.foldl min x

/-- The `.max()` reduction of a numpy array, modelled on lists. -/
def listMax : List ℝ → ℝ
  | [] => 0
  | x :: t => t.foldl max x

/-- Source line 76: `p_min = all_p_values.min()`. -/
def p_min (ps : Params) : ℝ := listMin (all_p_values ps)

/-- Source line 76: `p_max = all_p_values.max()`. -/
def p_max (ps : Params) : ℝ := listMax (all_p_values ps)

/-- Source line 77: `padding = (p_max - p_min) * 0.1`. -/
def padding (ps : Params) : ℝ := (p_max ps - p_min ps) * 0.1

/-- Source line 78: `ax.set_ylim(p_min - padding, p_max + padding)`. -/
def ylim (ps : Params) : ℝ × ℝ := (p_min ps - padding ps, p_max ps + padding ps)

/-- The single error kind the spec declares (spec section 7).  The script
itself never constructs one: it contains no validation branch. -/
inductive DomainError where
  | outOfDomain

/-- The full output of one evaluation pass: grid, three curves, bounds. -/
structure EvalResult where
  grid : List ℝ
  base : List ℝ
  endh : List ℝ
  dup : List ℝ
  bounds : ℝ × ℝ

/-- One evaluation pass of the script (source lines 42-78).  The script is
straight-line code: it contains no domain check and no raise, so it always
returns the computed curves and bounds, whatever the parameter values (at
N = 0 the numpy division produces IEEE infinities, still without raising).
The `Except DomainError` codomain expresses the error channel the spec
declares, so that its absence from the code is provable. -/
def evaluate (ps : Params) : Except DomainError EvalResult :=
  Except.ok ⟨F, P_base ps, P_endh ps, P_dup ps, ylim ps⟩

/-! ## Length and indexing lemmas -/

theorem F_length : F.length = 200 := by
  simp only [F, List.length_map, List.length_range]

theorem P_base_length (ps : Params) : (P_base ps).length = 200 := by
  simp only [P_base, F, List.length_map, List.length_range]

theorem P_endh_length (ps : Params) : (P_endh ps).length = 200 := by
  simp only [P_endh, F, List.length_map, List.length_range]

theorem P_dup_length (ps : Params) : (P_dup ps).length = 200 := by
  simp only [P_dup, P_endh, F, List.length_zipWith, List.length_map,
    List.length_range, Nat.min_self]

theorem hlen_F {i : ℕ} (h : i < 200) : i < F.length :=
  lt_of_lt_of_eq h F_length.symm

theorem hlen_base (ps : Params) {i : ℕ} (h : i < 200) : i < (P_base ps).length :=
  lt_of_lt_of_eq h (P_base_length ps).symm

theorem hlen_endh (ps : Params) {i : ℕ} (h : i < 200) : i < (P_endh ps).length :=
  lt_of_lt_of_eq h (P_endh_length ps).symm

theorem hlen_dup (ps : Params) {i : ℕ} (h : i < 200) : i < (P_dup ps).length :=
  lt_of_lt_of_eq h (P_dup_length ps).symm

theorem F_get (i : ℕ) (h : i < F.length) : F.get ⟨i, h⟩ = (i : ℝ) / 199 := by
  simp only [F, List.get_eq_getElem, List.getElem_map, List.getElem_range]

theorem P_base_get (ps : Params) (i : ℕ) (h : i < (P_base ps).length) :
    (P_base ps).get ⟨i, h⟩ =
      (1 - (i : ℝ) / 199) * (ps.pi - ps.C_op) +
        (i : ℝ) / 199 * (p ps ps.a_star * ps.pi - c ps ps.a_star) := by
  simp only [P_base, F, List.get_eq_getElem, List.getElem_map, List.getElem_range]

theorem P_endh_get (ps : Params) (i : ℕ) (h : i < (P_endh ps).length) :
    (P_endh ps).get ⟨i, h⟩ =
      (1 - (i : ℝ) / 199) * (ps.pi - C_op_F ps ((i : ℝ) / 199) / ps.N) +
        (i : ℝ) / 199 * (p ps ps.a_star * ps.pi - c ps ps.a_star) := by
  simp only [P_endh, F, List.get_eq_getElem, List.getElem_map, List.getElem_range]

theorem F_getElem (i : ℕ) (h : i < F.length) : F[i] = (i : ℝ) / 199 := by
  simp only [F, List.getElem_map, List.getElem_range]

theorem P_dup_get_eq (ps : Params) (i : ℕ) (h : i < 200) :
    (P_dup ps).get ⟨i, hlen_dup ps h⟩ =
      (P_endh ps).get ⟨i, hlen_endh ps h⟩ -
        ps.delta * ((i : ℝ) / 199) * (1 - (i : ℝ) / 199) := by
  rw [List.get_eq_getElem, List.get_eq_getElem]
  simp only [P_dup, List.getElem_zipWith, F_getElem i (hlen_F h)]

theorem P_dup_get (ps : Params) (i : ℕ) (h : i < 200) :
    (P_dup ps).get ⟨i, hlen_dup ps h⟩ =
      (1 - (i : ℝ) / 199) * (ps.pi - C_op_F ps ((i : ℝ) / 199) / ps.N) +
        (i : ℝ) / 199 * (p ps ps.a_star * ps.pi - c ps ps.a_star) -
        ps.delta * ((i : ℝ) / 199) * (1 - (i : ℝ) / 199) := by
  rw [P_dup_get_eq ps i h, P_endh_get ps i (hlen_endh ps h)]

/-! ## Fold lemmas for the min / max reductions -/

theorem foldl_min_le_init (t : List ℝ) : ∀ x : ℝ, t.foldl min x ≤ x := by
  induction t with
  | nil => intro x; exact le_rfl
  | cons y t ih =>
      intro x
      calc (y :: t).foldl min x = t.foldl min (min x y) := by simp [List.foldl_cons]
        _ ≤ min x y := ih (min x y)
        _ ≤ x := min_le_left x y

theorem foldl_min_le_mem (t : List ℝ) : ∀ x a : ℝ, a ∈ t → t.foldl min x ≤ a := by
  induction t with
  | nil => intro x a ha; cases ha
  | cons y t ih =>
      intro x a ha
      have e : (y :: t).foldl min x = t.foldl min (min x y) := by simp [List.foldl_cons]
      rcases List.mem_cons.1 ha with rfl | ha
      · calc (a :: t).foldl min x = t.foldl min (min x a) := by simp [List.foldl_cons]
          _ ≤ min x a := foldl_min_le_init t (min x a)
          _ ≤ a := min_le_right x a
      · rw [e]; exact ih (min x y) a ha

theorem listMin_le {l : List ℝ} {a : ℝ} (h : a ∈ l) : listMin l ≤ a := by
  cases l with
  | nil => cases h
  | cons x t =>
      rcases List.mem_cons.1 h with rfl | h
      · exact foldl_min_le_init t a
      · exact foldl_min_le_mem t x a h

theorem foldl_min_mem (t : List ℝ) : ∀ x : ℝ, t.foldl min x = x ∨ t.foldl min x ∈ t := by
  induction t with
  | nil => intro x; exact Or.inl rfl
  | cons y t ih =>
      intro x
      have e : (y :: t).foldl min x = t.foldl min (min x y) := by simp [List.foldl_cons]
      rcases ih (min x y) with h | h
      · rcases min_choice x y with hm | hm
        · exact Or.inl (by rw [e, h, hm])
        · exact Or.inr (by rw [e, h, hm]; exact List.mem_cons_self y t)
      · exact Or.inr (by rw [e]; exact List.mem_cons_of_mem y h)

theorem listMin_mem {l : List ℝ} (h : l ≠ []) : listMin l ∈ l := by
  cases l with
  | nil => exact absurd rfl h
  | cons x t =>
      rcases foldl_min_mem t x with h1 | h1
      · have e : listMin (x :: t) = t.foldl min x := rfl
        rw [e, h1]; exact List.mem_cons_self x t
      · exact List.mem_cons_of_mem x h1

theorem le_foldl_max_init (t : List ℝ) : ∀ x : ℝ, x ≤ t.foldl max x := by
  induction t with
  | nil => intro x; exact le_rfl
  | cons y t ih =>
      intro x
      calc x ≤ max x y := le_max_left x y
        _ ≤ t.foldl max (max x y) := ih (max x y)
        _ = (y :: t).foldl max x := by simp [List.foldl_cons]

theorem mem_le_foldl_max (t : List ℝ) : ∀ x a : ℝ, a ∈ t → a ≤ t.foldl max x := by
  induction t with
  | nil => intro x a ha; cases ha
  | cons y t ih =>
      intro x a ha
      have e : (y :: t).foldl max x = t.foldl max (max x y) := by simp [List.foldl_cons]
      rcases List.mem_cons.1 ha with rfl | ha
      · calc a ≤ max x a := le_max_right x a
          _ ≤ t.foldl max (max x a) := le_foldl_max_init t (max x a)
          _ = (a :: t).foldl max x := by simp [List.foldl_cons]
      · rw [e]; exact ih (max x y) a ha

theorem le_listMax {l : List ℝ} {a : ℝ} (h : a ∈ l) : a ≤ listMax l := by
  cases l with
  | nil => cases h
  | cons x t =>
      rcases List.mem_cons.1 h with rfl | h
      · exact le_foldl_max_init t a
      · exact mem_le_foldl_max t x a h

theorem foldl_max_mem (t : List ℝ) : ∀ x : ℝ, t.foldl max x = x ∨ t.foldl max x ∈ t := by
  induction t with
  | nil => intro x; exact Or.inl rfl
  | cons y t ih =>
      intro x
      have e : (y :: t).foldl max x = t.foldl max (max x y) := by simp [List.foldl_cons]
      rcases ih (max x y) with h | h
      · rcases max_choice x y with hm | hm
        · exact Or.inl (by rw [e, h, hm])
        · exact Or.inr (by rw [e, h, hm]; exact List.mem_cons_self y t)
      · exact Or.inr (by rw [e]; exact List.mem_cons_of_mem y h)

theorem listMax_mem {l : List ℝ} (h : l ≠ []) : listMax l ∈ l := by
  cases l with
  | nil => exact absurd rfl h
  | cons x t =>
      rcases foldl_max_mem t x with h1 | h1
      · have e : listMax (x :: t) = t.foldl max x := rfl
        rw [e, h1]; exact List.mem_cons_self x t
      · exact List.mem_cons_of_mem x h1

/-! ## Membership and bounds helpers -/

theorem all_p_values_length (ps : Params) : (all_p_values ps).length = 600 := by
  simp only [all_p_values, List.length_append, P_base_length, P_endh_length,
    P_dup_length]

theorem all_p_values_ne_nil (ps : Params) : all_p_values ps ≠ [] := by
  intro h
  have h6 := all_p_values_length ps
  rw [h] at h6
  exact absurd h6 (by norm_num)

theorem base_mem (ps : Params) (i : ℕ) (h : i < 200) :
    (P_base ps).get ⟨i, hlen_base ps h⟩ ∈ all_p_values ps :=
  List.mem_append_left _
    (List.mem_append_left _ (List.get_mem (P_base ps) i (hlen_base ps h)))

theorem endh_mem (ps : Params) (i : ℕ) (h : i < 200) :
    (P_endh ps).get ⟨i, hlen_endh ps h⟩ ∈ all_p_values ps :=
  List.mem_append_left _
    (List.mem_append_right _ (List.get_mem (P_endh ps) i (hlen_endh ps h)))

theorem dup_mem (ps : Params) (i : ℕ) (h : i < 200) :
    (P_dup ps).get ⟨i, hlen_dup ps h⟩ ∈ all_p_values ps :=
  List.mem_append_right _ (List.get_mem (P_dup ps) i (hlen_dup ps h))

theorem mem_within_ylim (ps : Params) {x : ℝ} (hx : x ∈ all_p_values ps) :
    (ylim ps).1 ≤ x ∧ x ≤ (ylim ps).2 := by
  have h1 : p_min ps ≤ x := listMin_le hx
  have h2 : x ≤ p_max ps := le_listMax hx
  have hpad : 0 ≤ padding ps := by unfold padding; nlinarith
  exact ⟨by show p_min ps - padding ps ≤ x; linarith,
    by show x ≤ p_max ps + padding ps; linarith⟩

/-! ## Claim theorems -/

/-- C4: the grid is an ordered sequence of exactly 200 evenly spaced values
of F in [0,1]: its length is 200, its first entry is 0, its last entry
(index 199) is exactly 1, and it is strictly increasing. -/
theorem grid_shape :
    F.length = 200 ∧
    F.get ⟨0, hlen_F (by norm_num)⟩ = 0 ∧
    F.get ⟨199, hlen_F (by norm_num)⟩ = 1 ∧
    List.Pairwise (fun a b : ℝ => a < b) F := by
  refine ⟨F_length, ?_, ?_, ?_⟩
  · rw [F_get]; norm_num
  · rw [F_get]; norm_num
  · exact (List.pairwise_lt_range 200).map _ (fun a b hab => by gcongr)

/-- C3: at every grid index, `P_dup[i] = P_endh[i] - δ·grid[i]·(1 - grid[i])`;
the equality is exact over ℝ, hence well within the 1e-9 tolerance the
spec allows. -/
theorem dup_formula (ps : Params) (i : ℕ) (h : i < 200) :
    (P_dup ps).get ⟨i, hlen_dup ps h⟩ =
      (P_endh ps).get ⟨i, hlen_endh ps h⟩ -
        ps.delta * F.get ⟨i, hlen_F h⟩ * (1 - F.get ⟨i, hlen_F h⟩) := by
  rw [P_dup_get_eq ps i h, F_get]

/-- Witness for C3 at the default slider values and grid index 7. -/
theorem dup_formula_witness :
    (P_dup psDefault).get ⟨7, hlen_dup psDefault (by norm_num)⟩ =
      (P_endh psDefault).get ⟨7, hlen_endh psDefault (by norm_num)⟩ -
        psDefault.delta * F.get ⟨7, hlen_F (by norm_num)⟩ *
          (1 - F.get ⟨7, hlen_F (by norm_num)⟩) :=
  dup_formula psDefault 7 (by norm_num)

/-- C10: with δ = 0 the duplication curve coincides with the endogenous
overhead curve at every grid index, not only at the endpoints. -/
theorem dup_eq_endh_of_delta_zero (ps : Params) (hd : ps.delta = 0)
    (i : ℕ) (h : i < 200) :
    (P_dup ps).get ⟨i, hlen_dup ps h⟩ = (P_endh ps).get ⟨i, hlen_endh ps h⟩ := by
  rw [P_dup_get_eq ps i h, hd]; ring

/-- Witness for C10 at the degenerate parameter set (δ = 0) and the interior
grid index 100. -/
theorem dup_eq_endh_of_delta_zero_witness :
    (P_dup psZero).get ⟨100, hlen_dup psZero (by norm_num)⟩ =
      (P_endh psZero).get ⟨100, hlen_endh psZero (by norm_num)⟩ :=
  dup_eq_endh_of_delta_zero psZero rfl 100 (by norm_num)

/-- C1 (amended): the script performs no domain validation at all: for every
parameter set — in or out of the declared domains — evaluation returns
`ok` with the full grid, curves and bounds, and never a `DomainError`. -/
theorem evaluate_no_domain_check (ps : Params) :
    evaluate ps = Except.ok ⟨F, P_base ps, P_endh ps, P_dup ps, ylim ps⟩ := rfl

/-- C1 counterexample: at the out-of-domain input N = 0 (all other sliders at
their defaults) the evaluation still returns `ok` with full results — it
does not fail with a `DomainError` before computing. -/
theorem evaluate_N0_no_error :
    psN0.N = 0 ∧
    evaluate psN0 = Except.ok ⟨F, P_base psN0, P_endh psN0, P_dup psN0, ylim psN0⟩ :=
  ⟨rfl, rfl⟩

/-- C2: the display bounds are exactly `(p_min - padding, p_max + padding)`
where `padding = (p_max - p_min) * 0.1`, and every value of each of the
three curves lies between the two bounds. -/
theorem bounds_correct (ps : Params) :
    ylim ps = (p_min ps - padding ps, p_max ps + padding ps) ∧
    ∀ i : ℕ, ∀ h : i < 200,
      ((ylim ps).1 ≤ (P_base ps).get ⟨i, hlen_base ps h⟩ ∧
        (P_base ps).get ⟨i, hlen_base ps h⟩ ≤ (ylim ps).2) ∧
      ((ylim ps).1 ≤ (P_endh ps).get ⟨i, hlen_endh ps h⟩ ∧
        (P_endh ps).get ⟨i, hlen_endh ps h⟩ ≤ (ylim ps).2) ∧
      ((ylim ps).1 ≤ (P_dup ps).get ⟨i, hlen_dup ps h⟩ ∧
        (P_dup ps).get ⟨i, hlen_dup ps h⟩ ≤ (ylim ps).2) :=
  ⟨rfl, fun i h => ⟨mem_within_ylim ps (base_mem ps i h),
    mem_within_ylim ps (endh_mem ps i h), mem_within_ylim ps (dup_mem ps i h)⟩⟩

/-- C5: endpoint values of the curves.  At F = 0 (index 0):
`P_base[0] = π - C_op` and `P_endh[0] = π - (H + v·N)/N`.  At F = 1
(index 199): `P_base[199] = P_endh[199] = p(a*)·π - c(a*)`, and the last
conjunct shows this value does not depend on H, v or C_op (replacing the
three by arbitrary values leaves `P_endh[199]` unchanged). -/
theorem endpoint_values (ps : Params) :
    (P_base ps).get ⟨0, hlen_base ps (by norm_num)⟩ = ps.pi - ps.C_op ∧
    (P_endh ps).get ⟨0, hlen_endh ps (by norm_num)⟩ =
      ps.pi - (ps.H + ps.v * ps.N) / ps.N ∧
    (P_base ps).get ⟨199, hlen_base ps (by norm_num)⟩ =
      p ps ps.a_star * ps.pi - c ps ps.a_star ∧
    (P_endh ps).get ⟨199, hlen_endh ps (by norm_num)⟩ =
      p ps ps.a_star * ps.pi - c ps ps.a_star ∧
    ∀ H' v' C' : ℝ,
      (P_endh ⟨ps.pi, C', H', v', ps.N, ps.a_star, ps.beta, ps.kappa, ps.delta⟩).get
          ⟨199, hlen_endh _ (by norm_num)⟩ =
        (P_endh ps).get ⟨199, hlen_endh ps (by norm_num)⟩ := by
  refine ⟨?_, ?_, ?_, ?_, ?_⟩
  · rw [P_base_get]; push_cast; ring
  · rw [P_endh_get]; simp only [C_op_F]; push_cast; ring
  · rw [P_base_get]; push_cast; ring
  · rw [P_endh_get]; simp only [C_op_F]; push_cast; ring
  · intro H' v' C'
    rw [P_endh_get, P_endh_get]
    simp only [C_op_F, p, c]
    push_cast
    ring

/-- C6 counterexample: δ = 0 lies in the declared domain and satisfies
δ ≥ 0, yet `P_dup` and `P_endh` agree at the interior grid index 100, so
under the hypothesis δ ≥ 0 equality is not confined to the endpoints. -/
theorem dup_eq_at_interior_cex :
    Valid psZero ∧ 0 ≤ psZero.delta ∧
    (P_dup psZero).get ⟨100, hlen_dup psZero (by norm_num)⟩ =
      (P_endh psZero).get ⟨100, hlen_endh psZero (by norm_num)⟩ ∧
    (100 : ℕ) ≠ 0 ∧ (100 : ℕ) ≠ 199 := by
  refine ⟨by norm_num [Valid, psZero], by norm_num [psZero], ?_, by norm_num,
    by norm_num⟩
  rw [P_dup_get_eq psZero 100 (by norm_num)]
  norm_num [psZero]

/-- C6 (amended): for δ ≥ 0 the duplication curve lies at or below the
endogenous curve at every grid index; when δ is strictly positive (rather
than merely nonnegative, as the claim stated) equality holds exactly at
the endpoint indices 0 and 199 — with δ = 0 the two curves agree at every
index, so the endpoint-only characterization requires δ > 0. -/
theorem dup_le_endh (ps : Params) (hd : 0 ≤ ps.delta) (i : ℕ) (h : i < 200) :
    (P_dup ps).get ⟨i, hlen_dup ps h⟩ ≤ (P_endh ps).get ⟨i, hlen_endh ps h⟩ ∧
    (0 < ps.delta →
      ((P_dup ps).get ⟨i, hlen_dup ps h⟩ = (P_endh ps).get ⟨i, hlen_endh ps h⟩ ↔
        i = 0 ∨ i = 199)) := by
  have hf0 : (0 : ℝ) ≤ (i : ℝ) / 199 := by positivity
  have hf1 : (i : ℝ) / 199 ≤ 1 := by
    rw [div_le_one (by norm_num)]
    exact_mod_cast (by omega : i ≤ 199)
  rw [P_dup_get_eq ps i h]
  constructor
  · nlinarith [mul_nonneg (mul_nonneg hd hf0)
      (by linarith : (0 : ℝ) ≤ 1 - (i : ℝ) / 199)]
  · intro hdpos
    constructor
    · intro heq
      have hz : ps.delta * ((i : ℝ) / 199) * (1 - (i : ℝ) / 199) = 0 := by
        linarith
      rcases mul_eq_zero.1 hz with hz1 | hz2
      · rcases mul_eq_zero.1 hz1 with hz3 | hz4
        · exact absurd hz3 (ne_of_gt hdpos)
        · left
          rcases div_eq_zero_iff.1 hz4 with h0 | h199
          · exact_mod_cast h0
          · exact absurd h199 (by norm_num)
      · right
        have h199 : (i : ℝ) = 199 := by
          field_simp at hz2
          linarith
        exact_mod_cast h199
    · intro hi
      rcases hi with rfl | rfl
      · norm_num
      · norm_num

/-- Witness for C6 at the default slider values (δ = 0.1 > 0) and grid
index 7. -/
theorem dup_le_endh_witness :
    (P_dup psDefault).get ⟨7, hlen_dup psDefault (by norm_num)⟩ ≤
      (P_endh psDefault).get ⟨7, hlen_endh psDefault (by norm_num)⟩ ∧
    (0 < psDefault.delta →
      ((P_dup psDefault).get ⟨7, hlen_dup psDefault (by norm_num)⟩ =
          (P_endh psDefault).get ⟨7, hlen_endh psDefault (by norm_num)⟩ ↔
        7 = 0 ∨ 7 = 199)) :=
  dup_le_endh psDefault (by norm_num [psDefault]) 7 (by norm_num)

/-! ## Degenerate-input helpers (π = C_op = 0, H = v = 0, a* = 0) -/

theorem degenerate_base_zero (ps : Params) (hpi : ps.pi = 0) (hC : ps.C_op = 0)
    (ha : ps.a_star = 0) (i : ℕ) (h : i < 200) :
    (P_base ps).get ⟨i, hlen_base ps h⟩ = 0 := by
  rw [P_base_get]
  simp [p, c, hpi, hC, ha, Real.exp_zero]

theorem degenerate_endh_zero (ps : Params) (hpi : ps.pi = 0) (hH : ps.H = 0)
    (hv : ps.v = 0) (ha : ps.a_star = 0) (i : ℕ) (h : i < 200) :
    (P_endh ps).get ⟨i, hlen_endh ps h⟩ = 0 := by
  rw [P_endh_get]
  simp [p, c, C_op_F, hpi, hH, hv, ha, Real.exp_zero]

theorem degenerate_dup_penalty (ps : Params) (hpi : ps.pi = 0) (hH : ps.H = 0)
    (hv : ps.v = 0) (ha : ps.a_star = 0) (i : ℕ) (h : i < 200) :
    (P_dup ps).get ⟨i, hlen_dup ps h⟩ =
      -(ps.delta * ((i : ℝ) / 199) * (1 - (i : ℝ) / 199)) := by
  rw [P_dup_get_eq ps i h, degenerate_endh_zero ps hpi hH hv ha i h]
  ring

theorem degenerate_all_zero (ps : Params) (hpi : ps.pi = 0) (hC : ps.C_op = 0)
    (hH : ps.H = 0) (hv : ps.v = 0) (ha : ps.a_star = 0) (hd : ps.delta = 0) :
    ∀ x ∈ all_p_values ps, x = 0 := by
  intro x hx
  unfold all_p_values at hx
  rcases List.mem_append.1 hx with hx | hx
  · rcases List.mem_append.1 hx with hx | hx
    · rcases List.mem_iff_get.1 hx with ⟨⟨i, hi⟩, rfl⟩
      exact degenerate_base_zero ps hpi hC ha i
        (lt_of_lt_of_eq hi (P_base_length ps))
    · rcases List.mem_iff_get.1 hx with ⟨⟨i, hi⟩, rfl⟩
      exact degenerate_endh_zero ps hpi hH hv ha i
        (lt_of_lt_of_eq hi (P_endh_length ps))
  · rcases List.mem_iff_get.1 hx with ⟨⟨i, hi⟩, rfl⟩
    rw [degenerate_dup_penalty ps hpi hH hv ha i (lt_of_lt_of_eq hi (P_dup_length ps)),
      hd]
    ring

theorem degenerate_ylim (ps : Params) (hpi : ps.pi = 0) (hC : ps.C_op = 0)
    (hH : ps.H = 0) (hv : ps.v = 0) (ha : ps.a_star = 0) (hd : ps.delta = 0) :
    ylim ps = (0, 0) := by
  have hall := degenerate_all_zero ps hpi hC hH hv ha hd
  have hmin : p_min ps = 0 := hall _ (listMin_mem (all_p_values_ne_nil ps))
  have hmax : p_max ps = 0 := hall _ (listMax_mem (all_p_values_ne_nil ps))
  unfold ylim padding
  rw [hmin, hmax]
  norm_num

/-- C7 (amended): in the degenerate case π = C_op = 0, H = v = 0, a* = 0, the
baseline and endogenous-overhead curves are constant 0 across the grid,
and `P_dup[i] = -δ·grid[i]·(1 - grid[i])` — constant 0 only when
additionally δ = 0, not for any valid δ as the claim stated.  The bounds
computation contains no division, and when δ = 0 it yields exactly the
zero-height range (0, 0): the code applies no minimum fallback span. -/
theorem degenerate_case (ps : Params) (hpi : ps.pi = 0) (hC : ps.C_op = 0)
    (hH : ps.H = 0) (hv : ps.v = 0) (ha : ps.a_star = 0) :
    (∀ i : ℕ, ∀ h : i < 200,
      (P_base ps).get ⟨i, hlen_base ps h⟩ = 0 ∧
      (P_endh ps).get ⟨i, hlen_endh ps h⟩ = 0 ∧
      (P_dup ps).get ⟨i, hlen_dup ps h⟩ =
        -(ps.delta * ((i : ℝ) / 199) * (1 - (i : ℝ) / 199))) ∧
    (ps.delta = 0 → ylim ps = (0, 0)) :=
  ⟨fun i h => ⟨degenerate_base_zero ps hpi hC ha i h,
      degenerate_endh_zero ps hpi hH hv ha i h,
      degenerate_dup_penalty ps hpi hH hv ha i h⟩,
    fun hd => degenerate_ylim ps hpi hC hH hv ha hd⟩

/-- Witness for C7 at the concrete degenerate parameter set `psZero`. -/
theorem degenerate_case_witness :
    (∀ i : ℕ, ∀ h : i < 200,
      (P_base psZero).get ⟨i, hlen_base psZero h⟩ = 0 ∧
      (P_endh psZero).get ⟨i, hlen_endh psZero h⟩ = 0 ∧
      (P_dup psZero).get ⟨i, hlen_dup psZero h⟩ =
        -(psZero.delta * ((i : ℝ) / 199) * (1 - (i : ℝ) / 199))) ∧
    (psZero.delta = 0 → ylim psZero = (0, 0)) :=
  degenerate_case psZero rfl rfl rfl rfl rfl

/-- C7 counterexample: with the degenerate inputs and the valid penalty
δ = 0.1 the duplication curve is strictly negative at the interior grid
index 100 (so not all three curves are constant 0), and with δ = 0 the
display bounds are the zero-height range (0, 0): the code applies no
minimum fallback span. -/
theorem degenerate_cex :
    Valid psDeg ∧
    (P_dup psDeg).get ⟨100, hlen_dup psDeg (by norm_num)⟩ < 0 ∧
    ylim psZero = (0, 0) ∧ (ylim psZero).2 - (ylim psZero).1 = 0 := by
  refine ⟨by norm_num [Valid, psDeg], ?_, ?_, ?_⟩
  · rw [degenerate_dup_penalty psDeg rfl rfl rfl rfl 100 (by norm_num)]
    norm_num [psDeg]
  · exact degenerate_ylim psZero rfl rfl rfl rfl rfl rfl
  · rw [degenerate_ylim psZero rfl rfl rfl rfl rfl rfl]
    norm_num

/-! ## The spec's closed forms (section 4.2), for the no-clamping claim -/

/-- Closed form of the baseline curve exactly as the spec writes it
(section 4.2); a second definition, from the spec's words, to be compared
with the code's arrays. -/
def spec_P_base (ps : Params) (f : ℝ) : ℝ :=
  (1 - f) * (ps.pi - ps.C_op) + f * (p ps ps.a_star * ps.pi - c ps ps.a_star)

/-- Closed form of the endogenous-overhead curve from the spec (section 4.2). -/
def spec_P_endh (ps : Params) (f : ℝ) : ℝ :=
  (1 - f) * (ps.pi - C_op_F ps f / ps.N) +
    f * (p ps ps.a_star * ps.pi - c ps ps.a_star)

/-- Closed form of the duplication-penalty curve from the spec (section 4.2). -/
def spec_P_dup (ps : Params) (f : ℝ) : ℝ :=
  spec_P_endh ps f - ps.delta * f * (1 - f)

/-- C9: no negative-profit clamping is applied anywhere: every stored curve
value equals the spec's raw closed-form expression (no maximum-with-zero on
the C_op_F-derived cost or on the profits), and the curves do go negative:
at the default slider values each of the three curves is strictly negative
at the last grid point. -/
theorem no_clamping :
    (∀ ps : Params, ∀ i : ℕ, ∀ h : i < 200,
      (P_base ps).get ⟨i, hlen_base ps h⟩ = spec_P_base ps ((i : ℝ) / 199) ∧
      (P_endh ps).get ⟨i, hlen_endh ps h⟩ = spec_P_endh ps ((i : ℝ) / 199) ∧
      (P_dup ps).get ⟨i, hlen_dup ps h⟩ = spec_P_dup ps ((i : ℝ) / 199)) ∧
    ((P_base psDefault).get ⟨199, hlen_base psDefault (by norm_num)⟩ < 0 ∧
      (P_endh psDefault).get ⟨199, hlen_endh psDefault (by norm_num)⟩ < 0 ∧
      (P_dup psDefault).get ⟨199, hlen_dup psDefault (by norm_num)⟩ < 0) := by
  constructor
  · intro ps i h
    refine ⟨?_, ?_, ?_⟩
    · rw [P_base_get]; rfl
    · rw [P_endh_get]; rfl
    · rw [P_dup_get ps i h]; simp only [spec_P_dup, spec_P_endh]
  · refine ⟨?_, ?_, ?_⟩
    · rw [P_base_get]
      simp only [psDefault, p, c]
      norm_num
      nlinarith [Real.exp_pos (-1 : ℝ)]
    · rw [P_endh_get]
      simp only [psDefault, p, c, C_op_F]
      norm_num
      nlinarith [Real.exp_pos (-1 : ℝ)]
    · rw [P_dup_get psDefault 199 (by norm_num)]
      simp only [psDefault, p, c, C_op_F]
      norm_num
      nlinarith [Real.exp_pos (-1 : ℝ)]

/-! ## Helper bounds for the safety claim -/

theorem p_nonneg (ps : Params) (hb : 0 ≤ ps.beta) (ha : 0 ≤ ps.a_star) :
    0 ≤ p ps ps.a_star := by
  unfold p
  have hle : Real.exp (-ps.beta * ps.a_star) ≤ 1 := by
    rw [Real.exp_le_one_iff]
    nlinarith
  linarith

theorem p_le_one (ps : Params) : p ps ps.a_star ≤ 1 := by
  unfold p
  linarith [Real.exp_pos (-ps.beta * ps.a_star)]

set_option maxHeartbeats 2000000 in
/-- C8: within the declared slider domains no arithmetic error can occur:
the divisor N is a nonzero real; the success probability lies in [0, 1]
and the effort cost in [0, 500]; the per-outlet operational cost
`C_op_F(F)/N` lies in [0, 5.005e7] for every F in [0, 1]; every value of
the three curves has absolute value at most 10^9; and the two display
bounds have absolute value at most 2·10^9 — all values are finite reals
far below any floating-point overflow threshold, with no NaN-producing
operation. -/
theorem no_arith_error (ps : Params) (hv : Valid ps) :
    (ps.N : ℝ) ≠ 0 ∧
    (0 ≤ p ps ps.a_star ∧ p ps ps.a_star ≤ 1) ∧
    (0 ≤ c ps ps.a_star ∧ c ps ps.a_star ≤ 500) ∧
    (∀ f : ℝ, 0 ≤ f → f ≤ 1 →
      0 ≤ C_op_F ps f / ps.N ∧ C_op_F ps f / ps.N ≤ 50050000) ∧
    (∀ x ∈ all_p_values ps, |x| ≤ 10 ^ 9) ∧
    |(ylim ps).1| ≤ 2 * 10 ^ 9 ∧ |(ylim ps).2| ≤ 2 * 10 ^ 9 := by
  obtain ⟨hpi0, hpi1, hC0, hC1, hH0, hH1, hv0, hv1, hN1, hN2, ha0, ha1, hb0,
    hb1, hk0, hk1, hd0, hd1⟩ := hv
  have hN1R : (1 : ℝ) ≤ ps.N := by exact_mod_cast hN1
  have hNpos : (0 : ℝ) < ps.N := by linarith
  have hNne : (ps.N : ℝ) ≠ 0 := ne_of_gt hNpos
  have hp0 : 0 ≤ p ps ps.a_star := p_nonneg ps (by linarith) ha0
  have hp1 : p ps ps.a_star ≤ 1 := p_le_one ps
  have hc0 : 0 ≤ c ps ps.a_star := by
    unfold c
    nlinarith [sq_nonneg ps.a_star]
  have hc500 : c ps ps.a_star ≤ 500 := by
    unfold c
    nlinarith [sq_nonneg ps.a_star,
      mul_nonneg (by linarith : (0 : ℝ) ≤ 10 - ps.a_star)
        (by linarith : (0 : ℝ) ≤ ps.a_star + 10)]
  have hCop : ∀ f : ℝ, 0 ≤ f → f ≤ 1 →
      0 ≤ C_op_F ps f / ps.N ∧ C_op_F ps f / ps.N ≤ 50050000 := by
    intro f hf0 hf1
    have hsplit : C_op_F ps f / ps.N = ps.H / ps.N + ps.v * (1 - f) := by
      unfold C_op_F
      field_simp
    have hHN0 : 0 ≤ ps.H / ps.N := div_nonneg hH0 (le_of_lt hNpos)
    have hHN1 : ps.H / ps.N ≤ ps.H := div_le_self hH0 hN1R
    rw [hsplit]
    constructor
    · nlinarith [mul_nonneg hv0 (by linarith : (0 : ℝ) ≤ 1 - f)]
    · nlinarith [mul_nonneg hv0 hf0]
  have hPB : p ps ps.a_star * ps.pi - c ps ps.a_star ≤ 1 := by
    nlinarith [mul_le_one₀ hp1 hpi0 hpi1]
  have hPBlo : -500 ≤ p ps ps.a_star * ps.pi - c ps ps.a_star := by
    nlinarith [mul_nonneg hp0 hpi0]
  have hbase : ∀ f : ℝ, 0 ≤ f → f ≤ 1 →
      |(1 - f) * (ps.pi - ps.C_op) +
        f * (p ps ps.a_star * ps.pi - c ps ps.a_star)| ≤ 10 ^ 9 := by
    intro f hf0 hf1
    rw [abs_le]
    have hA1 : -1 ≤ ps.pi - ps.C_op := by linarith
    have hA2 : ps.pi - ps.C_op ≤ 1 := by linarith
    have h1 := mul_le_mul_of_nonneg_left hA2 (by linarith : (0 : ℝ) ≤ 1 - f)
    have h2 := mul_le_mul_of_nonneg_left hPB hf0
    have h3 := mul_le_mul_of_nonneg_left hA1 (by linarith : (0 : ℝ) ≤ 1 - f)
    have h4 := mul_le_mul_of_nonneg_left hPBlo hf0
    constructor <;> nlinarith
  have hendh : ∀ f : ℝ, 0 ≤ f → f ≤ 1 →
      |(1 - f) * (ps.pi - C_op_F ps f / ps.N) +
        f * (p ps ps.a_star * ps.pi - c ps ps.a_star)| ≤ 10 ^ 9 - 1 := by
    intro f hf0 hf1
    obtain ⟨hX0, hX1⟩ := hCop f hf0 hf1
    rw [abs_le]
    have hA1 : -50050000 ≤ ps.pi - C_op_F ps f / ps.N := by linarith
    have hA2 : ps.pi - C_op_F ps f / ps.N ≤ 1 := by linarith
    have h1 := mul_le_mul_of_nonneg_left hA2 (by linarith : (0 : ℝ) ≤ 1 - f)
    have h2 := mul_le_mul_of_nonneg_left hPB hf0
    have h3 := mul_le_mul_of_nonneg_left hA1 (by linarith : (0 : ℝ) ≤ 1 - f)
    have h4 := mul_le_mul_of_nonneg_left hPBlo hf0
    constructor <;> nlinarith
  have hfrac : ∀ i : ℕ, i < 200 → 0 ≤ (i : ℝ) / 199 ∧ (i : ℝ) / 199 ≤ 1 := by
    intro i h
    refine ⟨by positivity, ?_⟩
    rw [div_le_one (by norm_num)]
    exact_mod_cast (by omega : i ≤ 199)
  have hmem : ∀ x ∈ all_p_values ps, |x| ≤ 10 ^ 9 := by
    intro x hx
    unfold all_p_values at hx
    rcases List.mem_append.1 hx with hx | hx
    · rcases List.mem_append.1 hx with hx | hx
      · rcases List.mem_iff_get.1 hx with ⟨⟨i, hi⟩, rfl⟩
        have h200 := lt_of_lt_of_eq hi (P_base_length ps)
        obtain ⟨hf0, hf1⟩ := hfrac i h200
        rw [P_base_get]
        exact hbase _ hf0 hf1
      · rcases List.mem_iff_get.1 hx with ⟨⟨i, hi⟩, rfl⟩
        have h200 := lt_of_lt_of_eq hi (P_endh_length ps)
        obtain ⟨hf0, hf1⟩ := hfrac i h200
        rw [P_endh_get]
        linarith [hendh _ hf0 hf1]
    · rcases List.mem_iff_get.1 hx with ⟨⟨i, hi⟩, rfl⟩
      have h200 := lt_of_lt_of_eq hi (P_dup_length ps)
      obtain ⟨hf0, hf1⟩ := hfrac i h200
      rw [P_dup_get ps i h200]
      have hpen0 : 0 ≤ ps.delta * ((i : ℝ) / 199) * (1 - (i : ℝ) / 199) :=
        mul_nonneg (mul_nonneg hd0 hf0) (by linarith)
      have hff : ((i : ℝ) / 199) * (1 - (i : ℝ) / 199) ≤ 1 :=
        mul_le_one₀ hf1 (by linarith) (by linarith)
      have hpen1 : ps.delta * ((i : ℝ) / 199) * (1 - (i : ℝ) / 199) ≤ 1 := by
        nlinarith [mul_le_one₀ hd1 (mul_nonneg hf0 (by linarith : (0 : ℝ) ≤ 1 - (i : ℝ) / 199)) hff]
      have he := hendh _ hf0 hf1
      rw [abs_le] at he ⊢
      constructor <;> [skip; skip] <;> nlinarith [he.1, he.2]
  have hpmin : |p_min ps| ≤ 10 ^ 9 :=
    hmem _ (listMin_mem (all_p_values_ne_nil ps))
  have hpmax : |p_max ps| ≤ 10 ^ 9 :=
    hmem _ (listMax_mem (all_p_values_ne_nil ps))
  have hmm : p_min ps ≤ p_max ps :=
    le_listMax (listMin_mem (all_p_values_ne_nil ps))
  rw [abs_le] at hpmin hpmax
  refine ⟨hNne, ⟨hp0, hp1⟩, ⟨hc0, hc500⟩, hCop, hmem, ?_, ?_⟩
  · show |p_min ps - padding ps| ≤ 2 * 10 ^ 9
    unfold padding
    rw [abs_le]
    constructor <;> nlinarith
  · show |p_max ps + padding ps| ≤ 2 * 10 ^ 9
    unfold padding
    rw [abs_le]
    constructor <;> nlinarith

/-- Witness for C8 at the concrete valid parameter set `psZero`. -/
theorem no_arith_error_witness :
    (psZero.N : ℝ) ≠ 0 ∧
    (0 ≤ p psZero psZero.a_star ∧ p psZero psZero.a_star ≤ 1) ∧
    (0 ≤ c psZero psZero.a_star ∧ c psZero psZero.a_star ≤ 500) ∧
    (∀ f : ℝ, 0 ≤ f → f ≤ 1 →
      0 ≤ C_op_F psZero f / psZero.N ∧ C_op_F psZero f / psZero.N ≤ 50050000) ∧
    (∀ x ∈ all_p_values psZero, |x| ≤ 10 ^ 9) ∧
    |(ylim psZero).1| ≤ 2 * 10 ^ 9 ∧ |(ylim psZero).2| ≤ 2 * 10 ^ 9 :=
  no_arith_error psZero (by norm_num [Valid, psZero])

end

end Steamlit
